import Mathlib

/-!
Shallow embedding of the Tetris game engine from `src/components/Tetris.jsx`.

Cells of the board hold `0` when empty and a nonzero color code when filled
(the JavaScript source stores hex color strings; we encode the seven colors
as the numbers 1..7, preserving emptiness tests `cell !== 0` and truthiness
of `board[y][x]`).  Coordinates are integers, as in the source, since the
collision check compares them against 0 and the board bounds.
-/

namespace Tetris

def BOARD_WIDTH : Nat := 10

def BOARD_HEIGHT : Nat := 20

abbrev Cell := Nat

abbrev Board := List (List Cell)

/-- Piece value: a rectangular 0/1 mask plus a color code, mirroring the
`{ shape, color }` objects of the source. -/
structure Piece where
  shape : List (List Nat)
  color : Cell
deriving DecidableEq, Repr

/-- Position record `{ x, y }` of the mask's top-left corner. -/
structure Pos where
  x : Int
  y : Int
deriving DecidableEq, Repr

def tetrominoI : Piece := ⟨[[1, 1, 1, 1]], 1⟩

def tetrominoJ : Piece := ⟨[[1, 0, 0], [1, 1, 1]], 2⟩

def tetrominoL : Piece := ⟨[[0, 0, 1], [1, 1, 1]], 3⟩

def tetrominoO : Piece := ⟨[[1, 1], [1, 1]], 4⟩

def tetrominoS : Piece := ⟨[[0, 1, 1], [1, 1, 0]], 5⟩

def tetrominoT : Piece := ⟨[[0, 1, 0], [1, 1, 1]], 6⟩

def tetrominoZ : Piece := ⟨[[1, 1, 0], [0, 1, 1]], 7⟩

/-- The seven shape templates, in the declaration order of `TETROMINOS`. -/
def TETROMINOS : List Piece :=
  [tetrominoI, tetrominoJ, tetrominoL, tetrominoO, tetrominoS, tetrominoT, tetrominoZ]

/-- `createBoard`: a `BOARD_HEIGHT × BOARD_WIDTH` matrix of empty cells. -/
def createBoard : Board :=
  List.replicate BOARD_HEIGHT (List.replicate BOARD_WIDTH 0)

/-- Read `board[y][x]`; out-of-range accesses read as empty, and are only ever
performed by the source under guards that keep them in range. -/
def getCell (b : Board) (x y : Int) : Cell :=
  if 0 ≤ x ∧ 0 ≤ y then (b.getD y.toNat []).getD x.toNat 0 else 0

/-- Write `board[y][x] = v`; writes outside the rectangle are dropped (the
source never performs them on states satisfying its invariants). -/
def setCell (b : Board) (x y : Int) (v : Cell) : Board :=
  if 0 ≤ x ∧ 0 ≤ y then
    b.set y.toNat ((b.getD y.toNat []).set x.toNat v)
  else b

/-- `isColliding(piece, pos)` from the source: scans every mask cell and
reports a collision when an occupied cell falls outside the side or bottom
walls or overlaps a filled board cell at nonnegative `y`. -/
def isColliding (board : Board) (piece : Piece) (pos : Pos) : Bool :=
  (List.range piece.shape.length).any fun y =>
    (List.range (piece.shape.getD y []).length).any fun x =>
      ((piece.shape.getD y []).getD x 0 != 0) &&
        (decide (pos.x + (x : Int) < 0) ||
         decide ((BOARD_WIDTH : Int) ≤ pos.x + (x : Int)) ||
         decide ((BOARD_HEIGHT : Int) ≤ pos.y + (y : Int)) ||
         (decide (0 ≤ pos.y + (y : Int)) &&
          (getCell board (pos.x + (x : Int)) (pos.y + (y : Int)) != 0)))

/-- Inner loop of the merge in `mergePieceToBoard`: writes one mask row into
the board (only occupied cells whose absolute row is nonnegative). -/
def mergeRow (color : Cell) (px py : Int) (row : List Nat) (y : Nat) (b : Board) : Board :=
  (List.range row.length).foldl
    (fun acc x =>
      if row.getD x 0 ≠ 0 ∧ 0 ≤ py + (y : Int) then
        setCell acc (px + (x : Int)) (py + (y : Int)) color
      else acc)
    b

/-- The board produced by the `forEach` writes of `mergePieceToBoard`. -/
def mergedBoard (b : Board) (p : Piece) (pos : Pos) : Board :=
  (List.range p.shape.length).foldl
    (fun acc y => mergeRow p.color pos.x pos.y (p.shape.getD y []) y acc)
    b

/-- Indices of fully filled rows, ascending — the `completedRows` reduce. -/
def completedRows (b : Board) : List Nat :=
  (List.range b.length).filter fun i => (b.getD i []).all fun c => c != 0

/-- Line-clear step of `mergePieceToBoard`: drop the rows whose index is in
`completed` and prepend as many fresh empty rows. -/
def clearRows (b : Board) (completed : List Nat) : Board :=
  List.replicate completed.length (List.replicate BOARD_WIDTH 0) ++
    ((List.range b.length).filter fun i => !(completed.contains i)).map fun i => b.getD i []

/-- Engine state: the five `useState` hooks of the component. -/
structure GameState where
  board : Board
  currentPiece : Option Piece
  position : Pos
  gameOver : Bool
  score : Nat
deriving DecidableEq, Repr

/-- Initial state of the component (also the state `resetGame` restores). -/
def initialState : GameState :=
  { board := createBoard
    currentPiece := none
    position := ⟨0, 0⟩
    gameOver := false
    score := 0 }

/-- `mergePieceToBoard`: writes the active piece into the board, clears the
piece, then detects completed rows and, when some exist, bumps the score by
`length * 100` and compacts the board. -/
def mergePieceToBoard (s : GameState) : GameState :=
  match s.currentPiece with
  | none => s
  | some p =>
    let newBoard := mergedBoard s.board p s.position
    let completed := completedRows newBoard
    if completed.length ≠ 0 then
      { s with
        board := clearRows newBoard completed
        currentPiece := none
        score := s.score + completed.length * 100 }
    else
      { s with board := newBoard, currentPiece := none }

/-- `moveDown`: the gravity step. -/
def moveDown (s : GameState) : GameState :=
  match s.currentPiece with
  | none => s
  | some p =>
    let newPos : Pos := ⟨s.position.x, s.position.y + 1⟩
    if isColliding s.board p newPos then
      if s.position.y < 1 then { s with gameOver := true }
      else mergePieceToBoard s
    else { s with position := newPos }

/-- `moveHorizontally(dir)`. -/
def moveHorizontally (s : GameState) (dir : Int) : GameState :=
  match s.currentPiece with
  | none => s
  | some p =>
    let newPos : Pos := ⟨s.position.x + dir, s.position.y⟩
    if isColliding s.board p newPos then s else { s with position := newPos }

/-- Rotated mask computed by `rotatePiece`:
`shape[0].map((_, i) => shape.map(row => row[i]).reverse())`. -/
def rotateShape (m : List (List Nat)) : List (List Nat) :=
  (List.range (m.headD []).length).map fun i => (m.map fun row => row.getD i 0).reverse

/-- `rotatePiece`: applies the rotated mask at the unchanged position unless
it collides there. -/
def rotatePiece (s : GameState) : GameState :=
  match s.currentPiece with
  | none => s
  | some p =>
    let rotated : Piece := ⟨rotateShape p.shape, p.color⟩
    if isColliding s.board rotated s.position then s
    else { s with currentPiece := some rotated }

/-- Spawn position `{ x: Math.floor(BOARD_WIDTH / 2) - 1, y: 0 }`. -/
def spawnPos : Pos := ⟨(BOARD_WIDTH : Int) / 2 - 1, 0⟩

/-- Spawn effect: when the game is not over and no piece exists, installs the
chosen template at the spawn position.  The random draw of the source is
externalized into the index `k` over the seven templates. -/
def spawnPiece (s : GameState) (k : Fin 7) : GameState :=
  if s.gameOver then s
  else
    match s.currentPiece with
    | some _ => s
    | none =>
      { s with currentPiece := some (TETROMINOS.getD k.val tetrominoI), position := spawnPos }

/-- `resetGame`. -/
def resetGame (_s : GameState) : GameState := initialState

/-- External events driving the engine: the gravity interval, the four arrow
keys, the spawn effect (with its externalized random draw) and reset. -/
inductive GEvent where
  | tick
  | keyLeft
  | keyRight
  | keyDown
  | keyUp
  | spawn (k : Fin 7)
  | reset
deriving DecidableEq, Repr

/-- One engine transition.  The gravity interval is cancelled once the game
is over and `handleKeyPress` returns early when `gameOver` holds, so every
event except `spawn` (which guards internally) and `reset` is gated on the
flag. -/
def step (s : GameState) (e : GEvent) : GameState :=
  match e with
  | .tick => if s.gameOver then s else moveDown s
  | .keyLeft => if s.gameOver then s else moveHorizontally s (-1)
  | .keyRight => if s.gameOver then s else moveHorizontally s 1
  | .keyDown => if s.gameOver then s else moveDown s
  | .keyUp => if s.gameOver then s else rotatePiece s
  | .spawn k => spawnPiece s k
  | .reset => resetGame s

/-- Run the engine from the initial state over a list of events. -/
def run (es : List GEvent) : GameState :=
  es.foldl step initialState

/-- Reachability from the initial component state. -/
def Reachable (s : GameState) : Prop :=
  ∃ es : List GEvent, run es = s

/-! Spec-side predicates used to state the claims. -/

/-- Row entirely filled (`row.every(cell => cell !== 0)`). -/
def fullRow (r : List Cell) : Bool :=
  r.all fun c => c != 0

/-- Board of the reference dimensions: 20 rows of 10 cells. -/
def properBoard (b : Board) : Prop :=
  b.length = BOARD_HEIGHT ∧ ∀ r ∈ b, r.length = BOARD_WIDTH

instance (b : Board) : Decidable (properBoard b) :=
  inferInstanceAs (Decidable (b.length = BOARD_HEIGHT ∧ ∀ r ∈ b, r.length = BOARD_WIDTH))

/-- Mask entry at row `j`, column `i` (missing entries read as 0). -/
def mget (m : List (List Nat)) (j i : Nat) : Nat :=
  (m.getD j []).getD i 0

/-- Every occupied mask cell of the active piece lies within the horizontal
bounds `[0, BOARD_WIDTH)`; vacuously true without an active piece. -/
def pieceInBounds (s : GameState) : Bool :=
  match s.currentPiece with
  | none => true
  | some p =>
    (List.range p.shape.length).all fun y =>
      (List.range (p.shape.getD y []).length).all fun x =>
        !((p.shape.getD y []).getD x 0 != 0) ||
          (decide (0 ≤ s.position.x + (x : Int)) &&
           decide (s.position.x + (x : Int) < (BOARD_WIDTH : Int)))

/-- No occupied mask cell of the active piece with nonnegative absolute row
coincides with a filled board cell; vacuously true without an active piece. -/
def pieceOverlapFree (s : GameState) : Bool :=
  match s.currentPiece with
  | none => true
  | some p =>
    (List.range p.shape.length).all fun y =>
      (List.range (p.shape.getD y []).length).all fun x =>
        !((p.shape.getD y []).getD x 0 != 0) ||
          !(decide (0 ≤ s.position.y + (y : Int)) &&
            (getCell s.board (s.position.x + (x : Int)) (s.position.y + (y : Int)) != 0))

/-- Width of a piece's mask (all seven templates are rectangular). -/
def shapeWidth (p : Piece) : Nat :=
  (p.shape.headD []).length

/-- Spec-side reading of the words "initial position horizontally centered":
the number of empty columns left of the piece and the number of empty
columns right of it differ by at most one. -/
def centeredSpec (x : Int) (w : Nat) : Prop :=
  x - ((BOARD_WIDTH : Int) - x - (w : Int)) ≤ 1 ∧
    ((BOARD_WIDTH : Int) - x - (w : Int)) - x ≤ 1

instance (x : Int) (w : Nat) : Decidable (centeredSpec x w) :=
  inferInstanceAs
    (Decidable (x - ((BOARD_WIDTH : Int) - x - (w : Int)) ≤ 1 ∧
      ((BOARD_WIDTH : Int) - x - (w : Int)) - x ≤ 1))

/-- Candidate invariant of claim C5, as the claim states it. -/
def pieceSafe (s : GameState) : Prop :=
  pieceInBounds s = true ∧ pieceOverlapFree s = true

/-- The invariant that actually holds: horizontal bounds always, overlap
freedom whenever the piece has left the spawn position. -/
def engineInv (s : GameState) : Prop :=
  pieceInBounds s = true ∧ (s.position ≠ spawnPos → pieceOverlapFree s = true)

/-- Event trace stacking four vertical and three horizontal `I` pieces in
columns 4..7 up to row 1, then spawning an `O`: the fresh `O` overlaps the
filled cells at row 1, columns 4 and 5. -/
def overlapTrace : List GEvent :=
  [.spawn ⟨0, by decide⟩, .keyUp] ++ List.replicate 17 .tick ++
  [.spawn ⟨0, by decide⟩, .keyUp] ++ List.replicate 13 .tick ++
  [.spawn ⟨0, by decide⟩, .keyUp] ++ List.replicate 9 .tick ++
  [.spawn ⟨0, by decide⟩, .keyUp] ++ List.replicate 5 .tick ++
  [.spawn ⟨0, by decide⟩] ++ List.replicate 4 .tick ++
  [.spawn ⟨0, by decide⟩] ++ List.replicate 3 .tick ++
  [.spawn ⟨0, by decide⟩] ++ List.replicate 2 .tick ++
  [.spawn ⟨3, by decide⟩]

/-! Basic characterization of the collision query. -/

theorem isColliding_eq_true_iff (b : Board) (p : Piece) (pos : Pos) :
    isColliding b p pos = true ↔
      ∃ y, y < p.shape.length ∧ ∃ x, x < (p.shape.getD y []).length ∧
        (p.shape.getD y []).getD x 0 ≠ 0 ∧
        (pos.x + (x : Int) < 0 ∨ (BOARD_WIDTH : Int) ≤ pos.x + (x : Int) ∨
          (BOARD_HEIGHT : Int) ≤ pos.y + (y : Int) ∨
          (0 ≤ pos.y + (y : Int) ∧ getCell b (pos.x + (x : Int)) (pos.y + (y : Int)) ≠ 0)) := by
  simp only [isColliding, List.any_eq_true, List.mem_range, Bool.and_eq_true, Bool.or_eq_true,
    decide_eq_true_eq, bne_iff_ne, or_assoc]

/-- A claim's target: `isColliding` false gives pointwise safety of every
occupied mask cell. -/
theorem isColliding_eq_false_iff (b : Board) (p : Piece) (pos : Pos) :
    isColliding b p pos = false ↔
      ∀ y, y < p.shape.length → ∀ x, x < (p.shape.getD y []).length →
        (p.shape.getD y []).getD x 0 ≠ 0 →
        (0 ≤ pos.x + (x : Int) ∧ pos.x + (x : Int) < (BOARD_WIDTH : Int) ∧
          pos.y + (y : Int) < (BOARD_HEIGHT : Int) ∧
          (0 ≤ pos.y + (y : Int) → getCell b (pos.x + (x : Int)) (pos.y + (y : Int)) = 0)) := by
  rw [← Bool.not_eq_true, isColliding_eq_true_iff]
  push_neg
  constructor
  · intro h y hy x hx hocc
    have := h y hy x hx hocc
    refine ⟨by omega, by omega, by omega, fun hge => ?_⟩
    have := this.2.2.2 hge
    simpa using this
  · intro h y hy x hx hocc
    have := h y hy x hx hocc
    refine ⟨by omega, by omega, by omega, fun hge => ?_⟩
    simp [this.2.2.2 hge]

/-! Lemmas about cell reads and writes. -/

theorem foldl_preserve {P : Board → Prop} {f : Board → Nat → Board}
    (hf : ∀ b n, P b → P (f b n)) :
    ∀ (l : List Nat) (b : Board), P b → P (l.foldl f b) := by
  intro l
  induction l with
  | nil => intro b hb; exact hb
  | cons a t ih => intro b hb; exact ih _ (hf b a hb)

theorem properBoard_setCell (b : Board) (x y : Int) (v : Cell) (hb : properBoard b) :
    properBoard (setCell b x y v) := by
  unfold setCell
  split
  · by_cases hy : y.toNat < b.length
    · refine ⟨by simp [hb.1], ?_⟩
      intro r hr
      rcases List.mem_or_eq_of_mem_set hr with h | h
      · exact hb.2 r h
      · subst h
        rw [List.length_set]
        have hrow : b.getD y.toNat [] = b[y.toNat] := by
          simp [List.getElem?_eq_getElem hy]
        rw [hrow]
        exact hb.2 _ (List.getElem_mem hy)
    · rw [List.set_eq_of_length_le (by omega)]
      exact hb
  · exact hb

theorem getCell_of_nonneg (b : Board) (X Y : Int) (hX0 : 0 ≤ X) (hY0 : 0 ≤ Y) :
    getCell b X Y = (b.getD Y.toNat []).getD X.toNat 0 := by
  unfold getCell
  rw [if_pos ⟨hX0, hY0⟩]

theorem getCell_setCell (b : Board) (x y X Y : Int) (v : Cell) (hb : properBoard b)
    (hX0 : 0 ≤ X) (hXW : X < (BOARD_WIDTH : Int)) (hY0 : 0 ≤ Y) (hYH : Y < (BOARD_HEIGHT : Int)) :
    getCell (setCell b x y v) X Y = if x = X ∧ y = Y then v else getCell b X Y := by
  obtain ⟨hlen, hrows⟩ := hb
  have hH : BOARD_HEIGHT = 20 := rfl
  have hHi : (BOARD_HEIGHT : Int) = 20 := rfl
  have hWi : (BOARD_WIDTH : Int) = 10 := rfl
  unfold setCell
  by_cases hg : 0 ≤ x ∧ 0 ≤ y
  · rw [if_pos hg]
    rw [getCell_of_nonneg _ _ _ hX0 hY0, getCell_of_nonneg _ _ _ hX0 hY0]
    have hYn : Y.toNat < b.length := by omega
    by_cases hy : y = Y
    · subst hy
      have hrow? : b[y.toNat]? = some b[y.toNat] := List.getElem?_eq_getElem hYn
      have hrlen : b[y.toNat].length = 10 := by
        have := hrows _ (List.getElem_mem hYn)
        omega
      simp only [List.getD_eq_getElem?_getD, List.getElem?_set_self hYn, Option.getD_some, hrow?]
      by_cases hx : x = X
      · subst hx
        have hXn : x.toNat < b[y.toNat].length := by omega
        simp [List.getElem?_set_self hXn]
      · have hne : x.toNat ≠ X.toNat := by omega
        simp [List.getElem?_set_ne hne, hx]
    · have hne : y.toNat ≠ Y.toNat := by omega
      simp only [List.getD_eq_getElem?_getD, List.getElem?_set_ne hne]
      simp [hy]
  · rw [if_neg hg]
    have hc : ¬(x = X ∧ y = Y) := by
      rintro ⟨rfl, rfl⟩
      exact hg ⟨hX0, hY0⟩
    rw [if_neg hc]

/-! Pointwise characterization of the merge writes. -/

theorem properBoard_mergeRow (color : Cell) (px py : Int) (row : List Nat) (y : Nat)
    (b : Board) (hb : properBoard b) : properBoard (mergeRow color px py row y b) := by
  unfold mergeRow
  refine foldl_preserve (fun b n hbn => ?_) _ b hb
  dsimp only
  split
  · exact properBoard_setCell _ _ _ _ hbn
  · exact hbn

theorem getCell_foldl_mergeRow_miss (color : Cell) (px py : Int) (row : List Nat) (y : Nat)
    (X Y : Int) (hX0 : 0 ≤ X) (hXW : X < (BOARD_WIDTH : Int)) (hY0 : 0 ≤ Y)
    (hYH : Y < (BOARD_HEIGHT : Int)) :
    ∀ (xs : List Nat) (b : Board), properBoard b →
      (∀ x ∈ xs, row.getD x 0 ≠ 0 → 0 ≤ py + (y : Int) →
        ¬(px + (x : Int) = X ∧ py + (y : Int) = Y)) →
      getCell
        (xs.foldl
          (fun acc x =>
            if row.getD x 0 ≠ 0 ∧ 0 ≤ py + (y : Int) then
              setCell acc (px + (x : Int)) (py + (y : Int)) color
            else acc)
          b) X Y = getCell b X Y := by
  intro xs
  induction xs with
  | nil => intro b _ _; rfl
  | cons a t ih =>
    intro b hb hmiss
    rw [List.foldl_cons]
    by_cases hg : row.getD a 0 ≠ 0 ∧ 0 ≤ py + (y : Int)
    · rw [if_pos hg]
      rw [ih _ (properBoard_setCell _ _ _ _ hb) (fun x hx => hmiss x (List.mem_cons_of_mem a hx))]
      rw [getCell_setCell _ _ _ _ _ _ hb hX0 hXW hY0 hYH]
      rw [if_neg (hmiss a (List.mem_cons_self a t) hg.1 hg.2)]
    · rw [if_neg hg]
      exact ih _ hb fun x hx => hmiss x (List.mem_cons_of_mem a hx)

theorem getCell_foldl_mergeRow_hit (color : Cell) (px py : Int) (row : List Nat) (y : Nat)
    (X Y : Int) (hX0 : 0 ≤ X) (hXW : X < (BOARD_WIDTH : Int)) (hY0 : 0 ≤ Y)
    (hYH : Y < (BOARD_HEIGHT : Int)) :
    ∀ (xs : List Nat) (b : Board), properBoard b →
      (∃ x ∈ xs, row.getD x 0 ≠ 0 ∧ 0 ≤ py + (y : Int) ∧
        px + (x : Int) = X ∧ py + (y : Int) = Y) →
      getCell
        (xs.foldl
          (fun acc x =>
            if row.getD x 0 ≠ 0 ∧ 0 ≤ py + (y : Int) then
              setCell acc (px + (x : Int)) (py + (y : Int)) color
            else acc)
          b) X Y = color := by
  intro xs
  induction xs with
  | nil => rintro b _ ⟨x, hx, _⟩; exact absurd hx (List.not_mem_nil x)
  | cons a t ih =>
    intro b hb hhit
    rw [List.foldl_cons]
    by_cases hht : ∃ x ∈ t, row.getD x 0 ≠ 0 ∧ 0 ≤ py + (y : Int) ∧
        px + (x : Int) = X ∧ py + (y : Int) = Y
    · refine ih _ ?_ hht
      dsimp only
      split
      · exact properBoard_setCell _ _ _ _ hb
      · exact hb
    · obtain ⟨x, hx, hocc, hge, hco⟩ := hhit
      rcases List.mem_cons.mp hx with rfl | hxt
      · rw [if_pos ⟨hocc, hge⟩]
        rw [getCell_foldl_mergeRow_miss color px py row y X Y hX0 hXW hY0 hYH t _
          (properBoard_setCell _ _ _ _ hb)
          (fun x' hx' ho' hg' hco' => hht ⟨x', hx', ho', hg', hco'⟩)]
        rw [getCell_setCell _ _ _ _ _ _ hb hX0 hXW hY0 hYH, if_pos hco]
      · exact absurd ⟨x, hxt, hocc, hge, hco⟩ hht

theorem getCell_mergeRow_miss (color : Cell) (px py : Int) (row : List Nat) (y : Nat)
    (b : Board) (X Y : Int) (hb : properBoard b) (hX0 : 0 ≤ X) (hXW : X < (BOARD_WIDTH : Int))
    (hY0 : 0 ≤ Y) (hYH : Y < (BOARD_HEIGHT : Int))
    (h : ∀ x, x < row.length → row.getD x 0 ≠ 0 → 0 ≤ py + (y : Int) →
      ¬(px + (x : Int) = X ∧ py + (y : Int) = Y)) :
    getCell (mergeRow color px py row y b) X Y = getCell b X Y := by
  unfold mergeRow
  exact getCell_foldl_mergeRow_miss color px py row y X Y hX0 hXW hY0 hYH _ b hb
    fun x hx => h x (List.mem_range.mp hx)

theorem getCell_mergeRow_hit (color : Cell) (px py : Int) (row : List Nat) (y : Nat)
    (b : Board) (X Y : Int) (hb : properBoard b) (hX0 : 0 ≤ X) (hXW : X < (BOARD_WIDTH : Int))
    (hY0 : 0 ≤ Y) (hYH : Y < (BOARD_HEIGHT : Int))
    (x : Nat) (hx : x < row.length) (hocc : row.getD x 0 ≠ 0) (hge : 0 ≤ py + (y : Int))
    (hcoX : px + (x : Int) = X) (hcoY : py + (y : Int) = Y) :
    getCell (mergeRow color px py row y b) X Y = color := by
  unfold mergeRow
  exact getCell_foldl_mergeRow_hit color px py row y X Y hX0 hXW hY0 hYH _ b hb
    ⟨x, List.mem_range.mpr hx, hocc, hge, hcoX, hcoY⟩

theorem properBoard_mergedBoard (b : Board) (p : Piece) (pos : Pos) (hb : properBoard b) :
    properBoard (mergedBoard b p pos) := by
  unfold mergedBoard
  exact foldl_preserve (fun b n hbn => properBoard_mergeRow _ _ _ _ _ _ hbn) _ b hb

theorem getCell_foldl_merged_miss (p : Piece) (pos : Pos) (X Y : Int)
    (hX0 : 0 ≤ X) (hXW : X < (BOARD_WIDTH : Int)) (hY0 : 0 ≤ Y) (hYH : Y < (BOARD_HEIGHT : Int)) :
    ∀ (ys : List Nat) (c : Board), properBoard c →
      (∀ y ∈ ys, ∀ x, x < (p.shape.getD y []).length → (p.shape.getD y []).getD x 0 ≠ 0 →
        0 ≤ pos.y + (y : Int) → ¬(pos.x + (x : Int) = X ∧ pos.y + (y : Int) = Y)) →
      getCell (ys.foldl (fun acc y => mergeRow p.color pos.x pos.y (p.shape.getD y []) y acc) c)
        X Y = getCell c X Y := by
  intro ys
  induction ys with
  | nil => intro c _ _; rfl
  | cons a t ih =>
    intro c hc hmiss
    rw [List.foldl_cons]
    rw [ih _ (properBoard_mergeRow _ _ _ _ _ _ hc)
      (fun y hy => hmiss y (List.mem_cons_of_mem a hy))]
    exact getCell_mergeRow_miss _ _ _ _ _ _ _ _ hc hX0 hXW hY0 hYH
      (hmiss a (List.mem_cons_self a t))

theorem getCell_foldl_merged_hit (p : Piece) (pos : Pos) (X Y : Int)
    (hX0 : 0 ≤ X) (hXW : X < (BOARD_WIDTH : Int)) (hY0 : 0 ≤ Y) (hYH : Y < (BOARD_HEIGHT : Int)) :
    ∀ (ys : List Nat) (c : Board), properBoard c →
      (∃ y ∈ ys, ∃ x, x < (p.shape.getD y []).length ∧ (p.shape.getD y []).getD x 0 ≠ 0 ∧
        0 ≤ pos.y + (y : Int) ∧ pos.x + (x : Int) = X ∧ pos.y + (y : Int) = Y) →
      getCell (ys.foldl (fun acc y => mergeRow p.color pos.x pos.y (p.shape.getD y []) y acc) c)
        X Y = p.color := by
  intro ys
  induction ys with
  | nil => rintro c _ ⟨y, hy, _⟩; exact absurd hy (List.not_mem_nil y)
  | cons a t ih =>
    intro c hc hhit
    rw [List.foldl_cons]
    by_cases hht : ∃ y ∈ t, ∃ x, x < (p.shape.getD y []).length ∧
        (p.shape.getD y []).getD x 0 ≠ 0 ∧ 0 ≤ pos.y + (y : Int) ∧
        pos.x + (x : Int) = X ∧ pos.y + (y : Int) = Y
    · exact ih _ (properBoard_mergeRow _ _ _ _ _ _ hc) hht
    · obtain ⟨y, hy, x, hx, hocc, hge, hcoX, hcoY⟩ := hhit
      rcases List.mem_cons.mp hy with rfl | hyt
      · rw [getCell_foldl_merged_miss p pos X Y hX0 hXW hY0 hYH t _
          (properBoard_mergeRow _ _ _ _ _ _ hc)
          (fun y' hy' x' hx' ho' hg' hco' => hht ⟨y', hy', x', hx', ho', hg', hco'⟩)]
        exact getCell_mergeRow_hit _ _ _ _ _ _ _ _ hc hX0 hXW hY0 hYH x hx hocc hge hcoX hcoY
      · exact absurd ⟨y, hyt, x, hx, hocc, hge, hcoX, hcoY⟩ hht

/-- Occupied mask cells with nonnegative absolute row end up holding the
piece's color after the merge writes. -/
theorem getCell_mergedBoard_occupied (b : Board) (p : Piece) (pos : Pos)
    (hb : properBoard b) (y x : Nat) (hy : y < p.shape.length)
    (hx : x < (p.shape.getD y []).length) (hocc : (p.shape.getD y []).getD x 0 ≠ 0)
    (hge : 0 ≤ pos.y + (y : Int))
    (hX0 : 0 ≤ pos.x + (x : Int)) (hXW : pos.x + (x : Int) < (BOARD_WIDTH : Int))
    (hYH : pos.y + (y : Int) < (BOARD_HEIGHT : Int)) :
    getCell (mergedBoard b p pos) (pos.x + (x : Int)) (pos.y + (y : Int)) = p.color := by
  unfold mergedBoard
  exact getCell_foldl_merged_hit p pos _ _ hX0 hXW hge hYH _ b hb
    ⟨y, List.mem_range.mpr hy, x, hx, hocc, hge, rfl, rfl⟩

/-- C1: the collision query returns true iff some occupied mask cell, at its
absolute grid coordinates `(pos.x + x, pos.y + y)`, has x-coordinate < 0,
x-coordinate ≥ 10, y-coordinate ≥ 20, or y-coordinate ≥ 0 with the grid cell
there filled; cells with absolute y < 0 are thereby never tested against grid
contents but still against the horizontal bounds. -/
theorem claim_C1_collision_query (b : Board) (p : Piece) (pos : Pos) :
    isColliding b p pos = true ↔
      ∃ y, y < p.shape.length ∧ ∃ x, x < (p.shape.getD y []).length ∧
        (p.shape.getD y []).getD x 0 ≠ 0 ∧
        (pos.x + (x : Int) < 0 ∨ (BOARD_WIDTH : Int) ≤ pos.x + (x : Int) ∨
          (BOARD_HEIGHT : Int) ≤ pos.y + (y : Int) ∨
          (0 ≤ pos.y + (y : Int) ∧ getCell b (pos.x + (x : Int)) (pos.y + (y : Int)) ≠ 0)) :=
  isColliding_eq_true_iff b p pos

/-- C4: a gravity tick that finds a collision below while the piece's y < 1
only raises the game-over flag: the board, the score, the piece and the
position are all left as they were. -/
theorem claim_C4_game_over_tick (s : GameState) (p : Piece)
    (hp : s.currentPiece = some p) (hgo : s.gameOver = false)
    (hcol : isColliding s.board p ⟨s.position.x, s.position.y + 1⟩ = true)
    (hy : s.position.y < 1) :
    step s .tick = { s with gameOver := true } := by
  simp [step, hgo, moveDown, hp, hcol, hy]

/-- Witness for C4: an `O` piece at the spawn position blocked by a filled
cell at row 2, column 4. -/
theorem claim_C4_game_over_tick_witness :
    (let s : GameState :=
      { board := setCell createBoard 4 2 1
        currentPiece := some tetrominoO
        position := ⟨4, 0⟩
        gameOver := false
        score := 7 }
     s.currentPiece = some tetrominoO ∧ s.gameOver = false ∧
       isColliding s.board tetrominoO ⟨s.position.x, s.position.y + 1⟩ = true ∧
       s.position.y < 1 ∧ step s .tick = { s with gameOver := true }) :=
  ⟨by decide, by decide, by decide, by decide,
    claim_C4_game_over_tick _ tetrominoO (by decide) (by decide) (by decide) (by decide)⟩

/-- C6: with the game-over flag set, the gravity tick, both horizontal moves,
the soft drop, the rotation and the spawn effect all leave the state
untouched. -/
theorem claim_C6_game_over_blocks (s : GameState) (hgo : s.gameOver = true) :
    step s .tick = s ∧ step s .keyLeft = s ∧ step s .keyRight = s ∧
      step s .keyDown = s ∧ step s .keyUp = s ∧ ∀ k, step s (.spawn k) = s := by
  refine ⟨?_, ?_, ?_, ?_, ?_, fun k => ?_⟩ <;> simp [step, spawnPiece, hgo]

/-- Witness for C6: the initial state with the flag forced on. -/
theorem claim_C6_game_over_blocks_witness :
    (let s : GameState := { initialState with gameOver := true }
     s.gameOver = true ∧
       (step s .tick = s ∧ step s .keyLeft = s ∧ step s .keyRight = s ∧
         step s .keyDown = s ∧ step s .keyUp = s ∧ ∀ k, step s (.spawn k) = s)) :=
  ⟨rfl, claim_C6_game_over_blocks _ rfl⟩


/-! Lemmas about row completion and the line-clear compaction. -/

theorem range_filter_getD (q : List Cell → Bool) :
    ∀ b : Board,
      (((List.range b.length).filter fun i => q (b.getD i [])).map fun i => b.getD i []) =
        b.filter q := by
  intro b
  induction b with
  | nil => rfl
  | cons a t ih =>
    rw [List.length_cons, List.range_succ_eq_map, List.filter_cons]
    by_cases hqa : q a
    · rw [if_pos (by simpa using hqa), List.map_cons]
      rw [List.filter_map, List.map_map]
      have hpred : ((fun i => q ((a :: t).getD i [])) ∘ Nat.succ) = fun i => q (t.getD i []) := rfl
      have hmap : ((fun i => (a :: t).getD i []) ∘ Nat.succ) = fun i => t.getD i [] := rfl
      rw [hpred, hmap, ih]
      simp [List.filter_cons, hqa]
    · rw [if_neg (by simpa using hqa)]
      rw [List.filter_map, List.map_map]
      have hpred : ((fun i => q ((a :: t).getD i [])) ∘ Nat.succ) = fun i => q (t.getD i []) := rfl
      have hmap : ((fun i => (a :: t).getD i []) ∘ Nat.succ) = fun i => t.getD i [] := rfl
      rw [hpred, hmap, ih]
      simp [List.filter_cons, hqa]

theorem mem_completedRows (b : Board) (i : Nat) :
    i ∈ completedRows b ↔ i < b.length ∧ fullRow (b.getD i []) = true := by
  simp [completedRows, fullRow, List.mem_filter, List.mem_range]

theorem completedRows_length_eq (b : Board) :
    (completedRows b).length = (b.filter fullRow).length := by
  have h := congrArg List.length (range_filter_getD fullRow b)
  rw [List.length_map] at h
  exact h

theorem clearRows_completed_eq (b : Board) :
    clearRows b (completedRows b) =
      List.replicate (completedRows b).length (List.replicate BOARD_WIDTH 0) ++
        b.filter fun r => !(fullRow r) := by
  unfold clearRows
  congr 1
  have hcongr : ((List.range b.length).filter fun i => !((completedRows b).contains i)) =
      (List.range b.length).filter fun i => !(fullRow (b.getD i [])) := by
    apply List.filter_congr
    intro i hi
    have hi' := List.mem_range.mp hi
    have hmem : (completedRows b).contains i = decide (i ∈ completedRows b) := by
      simp [List.contains]
    rw [hmem]
    by_cases hf : fullRow (b.getD i []) = true
    · simp [mem_completedRows, hi', hf]
    · simp only [mem_completedRows, Bool.not_eq_true] at hf ⊢
      simp [hi', hf]
  rw [hcongr]
  exact range_filter_getD (fun r => !(fullRow r)) b

theorem completedRows_nil_filter (b : Board) (h : completedRows b = []) :
    b.filter (fun r => !(fullRow r)) = b := by
  rw [List.filter_eq_self]
  intro r hr
  obtain ⟨n, hn, rfl⟩ := List.mem_iff_getElem.mp hr
  by_cases hf : fullRow b[n] = true
  · exfalso
    have : n ∈ completedRows b := by
      rw [mem_completedRows]
      refine ⟨hn, ?_⟩
      have : b.getD n [] = b[n] := by simp [List.getElem?_eq_getElem hn]
      rw [this]
      exact hf
    rw [h] at this
    exact List.not_mem_nil n this
  · simp [hf]

theorem filter_partition_length (q : List Cell → Bool) (b : Board) :
    (b.filter q).length + (b.filter fun r => !(q r)).length = b.length := by
  induction b with
  | nil => rfl
  | cons a t ih =>
    by_cases hq : q a <;> simp [List.filter_cons, hq] <;> omega

/-- The full effect of `mergePieceToBoard` on board and score, through the
lens of the line-clear specification. -/
theorem mergePieceToBoard_spec (s : GameState) (p : Piece)
    (hp : s.currentPiece = some p) (hb : properBoard s.board) :
    (mergePieceToBoard s).board =
        List.replicate ((mergedBoard s.board p s.position).filter fullRow).length
          (List.replicate BOARD_WIDTH 0) ++
          (mergedBoard s.board p s.position).filter (fun r => !(fullRow r)) ∧
      properBoard (mergePieceToBoard s).board ∧
      (mergePieceToBoard s).score =
        s.score + 100 * ((mergedBoard s.board p s.position).filter fullRow).length ∧
      (mergePieceToBoard s).currentPiece = none ∧
      (mergePieceToBoard s).gameOver = s.gameOver ∧
      (mergePieceToBoard s).position = s.position := by
  have hm : properBoard (mergedBoard s.board p s.position) :=
    properBoard_mergedBoard s.board p s.position hb
  have hk := completedRows_length_eq (mergedBoard s.board p s.position)
  unfold mergePieceToBoard
  rw [hp]
  dsimp only
  by_cases hne : (completedRows (mergedBoard s.board p s.position)).length ≠ 0
  · rw [if_pos hne]
    refine ⟨?_, ?_, ?_, rfl, rfl, rfl⟩
    · show clearRows _ _ = _
      rw [clearRows_completed_eq, hk]
    · show properBoard (clearRows _ _)
      rw [clearRows_completed_eq]
      constructor
      · rw [List.length_append, List.length_replicate, hk,
          filter_partition_length fullRow (mergedBoard s.board p s.position)]
        exact hm.1
      · intro r hr
        rcases List.mem_append.mp hr with h | h
        · rw [List.eq_of_mem_replicate h]
          exact List.length_replicate _ _
        · exact hm.2 r (List.mem_filter.mp h).1
    · show s.score + _ * 100 = s.score + 100 * _
      rw [hk, Nat.mul_comm]
  · rw [if_neg hne]
    push_neg at hne
    have hnil : completedRows (mergedBoard s.board p s.position) = [] :=
      List.eq_nil_of_length_eq_zero hne
    have hzero : ((mergedBoard s.board p s.position).filter fullRow).length = 0 := by
      rw [← hk, hne]
    refine ⟨?_, ?_, ?_, rfl, rfl, rfl⟩
    · show mergedBoard s.board p s.position = _
      rw [hzero, List.replicate_zero, List.nil_append,
        completedRows_nil_filter _ hnil]
    · exact hm
    · show s.score = s.score + 100 * _
      rw [hzero, Nat.mul_zero, Nat.add_zero]


/-- C2: a gravity tick that finds a collision below while the piece's y ≥ 1
merges the piece into the grid at its current position (every occupied mask
cell with nonnegative absolute row set to the piece's color), clears all
completed rows, adds 100 per cleared row to the score, keeps the game
running, and clears the active piece so the next spawn can occur. -/
theorem claim_C2_lock_and_clear (s : GameState) (p : Piece)
    (hp : s.currentPiece = some p) (hgo : s.gameOver = false)
    (hb : properBoard s.board)
    (hcur : isColliding s.board p s.position = false)
    (hcol : isColliding s.board p ⟨s.position.x, s.position.y + 1⟩ = true)
    (hy : 1 ≤ s.position.y) :
    (step s .tick).currentPiece = none ∧
      (step s .tick).gameOver = false ∧
      (step s .tick).score =
        s.score + 100 * ((mergedBoard s.board p s.position).filter fullRow).length ∧
      (step s .tick).board =
        List.replicate ((mergedBoard s.board p s.position).filter fullRow).length
          (List.replicate BOARD_WIDTH 0) ++
          (mergedBoard s.board p s.position).filter (fun r => !(fullRow r)) ∧
      (∀ y x, y < p.shape.length → x < (p.shape.getD y []).length →
        (p.shape.getD y []).getD x 0 ≠ 0 → 0 ≤ s.position.y + (y : Int) →
        getCell (mergedBoard s.board p s.position)
          (s.position.x + (x : Int)) (s.position.y + (y : Int)) = p.color) := by
  have hy1 : ¬(s.position.y < 1) := by omega
  have hstep : step s .tick = mergePieceToBoard s := by
    simp [step, hgo, moveDown, hp, hcol, hy1]
  obtain ⟨hboard, hproper, hscore, hpiece, hflag, -⟩ := mergePieceToBoard_spec s p hp hb
  rw [hstep]
  refine ⟨hpiece, by rw [hflag, hgo], hscore, hboard, ?_⟩
  intro y x hy' hx hocc hge
  have hsafe := (isColliding_eq_false_iff s.board p s.position).mp hcur y hy' x hx hocc
  exact getCell_mergedBoard_occupied s.board p s.position hb y x hy' hx hocc hge
    hsafe.1 hsafe.2.1 hsafe.2.2.1

/-- Witness for C2: an `O` piece resting on the floor at (4, 18) of an empty
board locks there. -/
theorem claim_C2_lock_and_clear_witness :
    (let s : GameState :=
      { board := createBoard
        currentPiece := some tetrominoO
        position := ⟨4, 18⟩
        gameOver := false
        score := 0 }
     (s.currentPiece = some tetrominoO ∧ s.gameOver = false ∧ properBoard s.board ∧
        isColliding s.board tetrominoO s.position = false ∧
        isColliding s.board tetrominoO ⟨s.position.x, s.position.y + 1⟩ = true ∧
        1 ≤ s.position.y) ∧
       ((step s .tick).currentPiece = none ∧
        (step s .tick).gameOver = false ∧
        (step s .tick).score =
          s.score + 100 * ((mergedBoard s.board tetrominoO s.position).filter fullRow).length ∧
        (step s .tick).board =
          List.replicate ((mergedBoard s.board tetrominoO s.position).filter fullRow).length
            (List.replicate BOARD_WIDTH 0) ++
            (mergedBoard s.board tetrominoO s.position).filter (fun r => !(fullRow r)) ∧
        (∀ y x, y < tetrominoO.shape.length → x < (tetrominoO.shape.getD y []).length →
          (tetrominoO.shape.getD y []).getD x 0 ≠ 0 → 0 ≤ (⟨4, 18⟩ : Pos).y + (y : Int) →
          getCell (mergedBoard s.board tetrominoO s.position)
            ((⟨4, 18⟩ : Pos).x + (x : Int)) ((⟨4, 18⟩ : Pos).y + (y : Int)) =
            tetrominoO.color))) :=
  ⟨⟨rfl, rfl, by decide, by decide, by decide, by decide⟩,
    claim_C2_lock_and_clear _ tetrominoO rfl rfl (by decide) (by decide) (by decide) (by decide)⟩

/-- C3: merging a lock whose resulting grid contains exactly k fully filled
rows yields a grid of identical dimensions in which those rows are removed,
k empty rows are prepended, the remaining rows keep their relative order,
and the score grows by exactly 100·k. -/
theorem claim_C3_line_clear (s : GameState) (p : Piece) (k : Nat)
    (hp : s.currentPiece = some p) (hb : properBoard s.board)
    (hk : ((mergedBoard s.board p s.position).filter fullRow).length = k) :
    (mergePieceToBoard s).board =
        List.replicate k (List.replicate BOARD_WIDTH 0) ++
          (mergedBoard s.board p s.position).filter (fun r => !(fullRow r)) ∧
      (mergePieceToBoard s).board.length = s.board.length ∧
      (∀ r ∈ (mergePieceToBoard s).board, r.length = BOARD_WIDTH) ∧
      (mergePieceToBoard s).score = s.score + 100 * k := by
  obtain ⟨hboard, hproper, hscore, -, -, -⟩ := mergePieceToBoard_spec s p hp hb
  subst hk
  refine ⟨hboard, ?_, hproper.2, hscore⟩
  rw [hproper.1, hb.1]

/-- Witness for C3: an `O` piece locking at (4, 18) onto a board whose bottom
row is filled except at columns 4 and 5 completes exactly one row. -/
theorem claim_C3_line_clear_witness :
    (let s : GameState :=
      { board := List.replicate 19 (List.replicate 10 0) ++ [[1, 1, 1, 1, 0, 0, 1, 1, 1, 1]]
        currentPiece := some tetrominoO
        position := ⟨4, 18⟩
        gameOver := false
        score := 0 }
     (s.currentPiece = some tetrominoO ∧ properBoard s.board ∧
        ((mergedBoard s.board tetrominoO s.position).filter fullRow).length = 1) ∧
       ((mergePieceToBoard s).board =
          List.replicate 1 (List.replicate BOARD_WIDTH 0) ++
            (mergedBoard s.board tetrominoO s.position).filter (fun r => !(fullRow r)) ∧
        (mergePieceToBoard s).board.length = s.board.length ∧
        (∀ r ∈ (mergePieceToBoard s).board, r.length = BOARD_WIDTH) ∧
        (mergePieceToBoard s).score = s.score + 100 * 1)) :=
  ⟨⟨rfl, by decide, by decide⟩,
    claim_C3_line_clear _ tetrominoO 1 rfl (by decide) (by decide)⟩


/-! Lemmas about the rotation transform. -/

theorem rotateShape_length (m : List (List Nat)) (c : Nat)
    (hc : ∀ row ∈ m, row.length = c) (hm : 0 < m.length) :
    (rotateShape m).length = c := by
  unfold rotateShape
  rw [List.length_map, List.length_range]
  match m, hm with
  | a :: t, _ => exact hc a (List.mem_cons_self a t)

theorem rotateShape_row_length (m : List (List Nat)) :
    ∀ row ∈ rotateShape m, row.length = m.length := by
  intro row hrow
  unfold rotateShape at hrow
  obtain ⟨i, -, rfl⟩ := List.mem_map.mp hrow
  rw [List.length_reverse, List.length_map]

theorem mget_rotateShape (m : List (List Nat)) (c : Nat)
    (hc : ∀ row ∈ m, row.length = c) (hm : 0 < m.length) (i j : Nat)
    (hi : i < c) (hj : j < m.length) :
    mget (rotateShape m) i j = mget m (m.length - 1 - j) i := by
  have hhead : (m.headD []).length = c := by
    match m, hm with
    | a :: t, _ => exact hc a (List.mem_cons_self a t)
  have hrange : i < (List.range (m.headD []).length).length := by
    rw [List.length_range, hhead]; exact hi
  have hrow : (rotateShape m).getD i [] = (m.map fun row => row.getD i 0).reverse := by
    unfold rotateShape
    rw [List.getD_eq_getElem?_getD, List.getElem?_map, List.getElem?_range (by omega : i < (m.headD []).length)]
    rfl
  rw [mget, hrow]
  have hjm : j < (m.map fun row => row.getD i 0).length := by
    rw [List.length_map]; exact hj
  rw [List.getD_eq_getElem?_getD, List.getElem?_reverse hjm, List.length_map]
  have hidx : m.length - 1 - j < m.length := by omega
  rw [List.getElem?_map, List.getElem?_eq_getElem hidx]
  simp [mget, List.getD_eq_getElem?_getD, List.getElem?_eq_getElem hidx]

theorem mask_ext (m m' : List (List Nat)) (c : Nat) (hlen : m.length = m'.length)
    (hc : ∀ row ∈ m, row.length = c) (hc' : ∀ row ∈ m', row.length = c)
    (hget : ∀ j, j < m.length → ∀ i, i < c → mget m j i = mget m' j i) : m = m' := by
  apply List.ext_getElem hlen
  intro j hj hj'
  have hrl : m[j].length = c := hc _ (List.getElem_mem hj)
  have hrl' : m'[j].length = c := hc' _ (List.getElem_mem hj')
  apply List.ext_getElem (by rw [hrl, hrl'])
  intro i hi hi'
  have h2 : m[j][i]?.getD 0 = m'[j][i]?.getD 0 := by
    have := hget j hj i (by omega)
    simpa [mget, List.getD_eq_getElem?_getD, List.getElem?_eq_getElem hj,
      List.getElem?_eq_getElem hj'] using this
  rw [List.getElem?_eq_getElem hi, List.getElem?_eq_getElem hi'] at h2
  simpa using h2


/-- C7: rotation replaces the mask by its 90° clockwise transform — the
transpose followed by reversing each resulting row, a mask of swapped
dimensions whose entry at (i, j) is the original entry at (r-1-j, i) —
exactly when the rotated mask does not collide at the unchanged position;
otherwise the state is unchanged.  No wall-kick offset is searched: the
position is never modified in either case. -/
theorem claim_C7_rotate (s : GameState) (p : Piece) (r c : Nat)
    (hp : s.currentPiece = some p) (hr : p.shape.length = r)
    (hc : ∀ row ∈ p.shape, row.length = c) (hrpos : 0 < r) :
    ((rotateShape p.shape).length = c ∧
      (∀ row ∈ rotateShape p.shape, row.length = r) ∧
      (∀ i j, i < c → j < r →
        mget (rotateShape p.shape) i j = mget p.shape (r - 1 - j) i)) ∧
    (isColliding s.board ⟨rotateShape p.shape, p.color⟩ s.position = false →
      rotatePiece s = { s with currentPiece := some ⟨rotateShape p.shape, p.color⟩ }) ∧
    (isColliding s.board ⟨rotateShape p.shape, p.color⟩ s.position = true →
      rotatePiece s = s) := by
  subst hr
  refine ⟨⟨rotateShape_length _ _ hc hrpos,
    fun row h => rotateShape_row_length _ row h, ?_⟩, ?_, ?_⟩
  · intro i j hi hj
    exact mget_rotateShape p.shape c hc hrpos i j hi hj
  · intro h
    simp [rotatePiece, hp, h]
  · intro h
    simp [rotatePiece, hp, h]

/-- Witness for C7: rotating a `T` piece at the spawn position of an empty
board succeeds. -/
theorem claim_C7_rotate_witness :
    (let s : GameState :=
      { board := createBoard
        currentPiece := some tetrominoT
        position := ⟨4, 0⟩
        gameOver := false
        score := 0 }
     (s.currentPiece = some tetrominoT ∧ tetrominoT.shape.length = 2 ∧
        (∀ row ∈ tetrominoT.shape, row.length = 3) ∧ 0 < 2) ∧
       (((rotateShape tetrominoT.shape).length = 3 ∧
          (∀ row ∈ rotateShape tetrominoT.shape, row.length = 2) ∧
          (∀ i j, i < 3 → j < 2 →
            mget (rotateShape tetrominoT.shape) i j = mget tetrominoT.shape (2 - 1 - j) i)) ∧
        (isColliding s.board ⟨rotateShape tetrominoT.shape, tetrominoT.color⟩ s.position = false →
          rotatePiece s =
            { s with currentPiece := some ⟨rotateShape tetrominoT.shape, tetrominoT.color⟩ }) ∧
        (isColliding s.board ⟨rotateShape tetrominoT.shape, tetrominoT.color⟩ s.position = true →
          rotatePiece s = s))) :=
  ⟨⟨rfl, rfl, by decide, by decide⟩,
    claim_C7_rotate _ tetrominoT 2 3 rfl rfl (by decide) (by decide)⟩

/-- Counterexample to C10 as stated over every rectangular mask: the
rectangular mask `[[]]` (one row, zero columns) is taken by one rotation to
`[]`, so four rotations yield `[]`, not the original mask. -/
theorem claim_C10_counterexample :
    rotateShape (rotateShape (rotateShape (rotateShape ([[]] : List (List Nat))))) = [] ∧
      ([] : List (List Nat)) ≠ [[]] := by
  decide

/-- C10 (amended): for every rectangular mask whose rows are nonempty (or
with no rows at all), applying the rotation transform four times yields the
original mask. -/
theorem claim_C10_rotate_four (m : List (List Nat)) (r c : Nat)
    (hr : m.length = r) (hc : ∀ row ∈ m, row.length = c) (hnz : 0 < c ∨ r = 0) :
    rotateShape (rotateShape (rotateShape (rotateShape m))) = m := by
  by_cases hr0 : m = []
  · subst hr0
    decide
  have hrpos : 0 < m.length := List.length_pos.mpr hr0
  have hcpos : 0 < c := by
    rcases hnz with h | h
    · exact h
    · omega
  subst hr
  have h1len : (rotateShape m).length = c := rotateShape_length m c hc hrpos
  have h1rows : ∀ row ∈ rotateShape m, row.length = m.length :=
    rotateShape_row_length m
  have hm1 : 0 < (rotateShape m).length := by omega
  have h2len : (rotateShape (rotateShape m)).length = m.length :=
    rotateShape_length _ _ h1rows hm1
  have h2rows : ∀ row ∈ rotateShape (rotateShape m), row.length = c := by
    intro row h
    rw [rotateShape_row_length _ row h, h1len]
  have hm2 : 0 < (rotateShape (rotateShape m)).length := by omega
  have h3len : (rotateShape (rotateShape (rotateShape m))).length = c :=
    rotateShape_length _ _ h2rows hm2
  have h3rows : ∀ row ∈ rotateShape (rotateShape (rotateShape m)), row.length = m.length := by
    intro row h
    rw [rotateShape_row_length _ row h, h2len]
  have hm3 : 0 < (rotateShape (rotateShape (rotateShape m))).length := by omega
  have h4len : (rotateShape (rotateShape (rotateShape (rotateShape m)))).length = m.length :=
    rotateShape_length _ _ h3rows hm3
  have h4rows : ∀ row ∈ rotateShape (rotateShape (rotateShape (rotateShape m))),
      row.length = c := by
    intro row h
    rw [rotateShape_row_length _ row h, h3len]
  apply mask_ext _ _ c h4len h4rows hc
  intro j hj i hi
  rw [h4len] at hj
  have e1 := mget_rotateShape _ m.length h3rows hm3 j i (by omega) (by omega)
  rw [h3len] at e1
  have e2 := mget_rotateShape _ c h2rows hm2 (c - 1 - i) j (by omega) (by omega)
  rw [h2len] at e2
  have e3 := mget_rotateShape _ m.length h1rows hm1 (m.length - 1 - j) (c - 1 - i)
    (by omega) (by omega)
  rw [h1len] at e3
  have e4 := mget_rotateShape m c hc hrpos i (m.length - 1 - j) (by omega) (by omega)
  have hci : c - 1 - (c - 1 - i) = i := by omega
  have hrj : m.length - 1 - (m.length - 1 - j) = j := by omega
  rw [e1, e2, e3, hci, e4, hrj]

/-- Witness for C10: a concrete 3×2 rectangular mask. -/
theorem claim_C10_rotate_four_witness :
    (([[1, 0], [0, 1], [1, 1]] : List (List Nat)).length = 3 ∧
        (∀ row ∈ ([[1, 0], [0, 1], [1, 1]] : List (List Nat)), row.length = 2) ∧
        ((0 : Nat) < 2 ∨ 3 = 0)) ∧
      rotateShape (rotateShape (rotateShape (rotateShape
        ([[1, 0], [0, 1], [1, 1]] : List (List Nat))))) = [[1, 0], [0, 1], [1, 1]] :=
  ⟨⟨rfl, by decide, by decide⟩,
    claim_C10_rotate_four _ 3 2 rfl (by decide) (by decide)⟩


/-- Counterexample to C8 as stated: the `I` template spawns at x = 4, where
it occupies columns 4..7, leaving margins 4 and 2 — not horizontally
centered. -/
theorem claim_C8_counterexample :
    (spawnPiece initialState (0 : Fin 7)).currentPiece = some tetrominoI ∧
      (spawnPiece initialState (0 : Fin 7)).position = ⟨4, 0⟩ ∧
      ¬centeredSpec 4 (shapeWidth tetrominoI) := by
  decide

/-- C8 (amended): whenever no piece exists and the game is not over, the
spawn effect installs exactly the chosen one of the seven templates at
x = ⌊width/2⌋ - 1 = 4, y = 0, touching nothing else; that position is
horizontally centered (margins differing by at most one) for every template
except the 4-wide `I`, which sits one column right of center. -/
theorem claim_C8_spawn (s : GameState) (k : Fin 7)
    (hp : s.currentPiece = none) (hgo : s.gameOver = false) :
    (spawnPiece s k).currentPiece = some (TETROMINOS.getD k.val tetrominoI) ∧
      TETROMINOS.getD k.val tetrominoI ∈ TETROMINOS ∧
      (spawnPiece s k).position = ⟨4, 0⟩ ∧
      (spawnPiece s k).board = s.board ∧
      (spawnPiece s k).score = s.score ∧
      (spawnPiece s k).gameOver = false ∧
      (TETROMINOS.getD k.val tetrominoI ≠ tetrominoI →
        centeredSpec 4 (shapeWidth (TETROMINOS.getD k.val tetrominoI))) := by
  have hsp : spawnPiece s k =
      { s with currentPiece := some (TETROMINOS.getD k.val tetrominoI),
               position := spawnPos } := by
    simp [spawnPiece, hgo, hp]
  rw [hsp]
  refine ⟨rfl, ?_, show spawnPos = (⟨4, 0⟩ : Pos) by decide, rfl, rfl, hgo, ?_⟩
  · fin_cases k <;> decide
  · fin_cases k <;> decide

/-- Witness for C8: the `O` template spawning into the initial state. -/
theorem claim_C8_spawn_witness :
    (initialState.currentPiece = none ∧ initialState.gameOver = false) ∧
      ((spawnPiece initialState (3 : Fin 7)).currentPiece =
          some (TETROMINOS.getD (3 : Fin 7).val tetrominoI) ∧
        TETROMINOS.getD (3 : Fin 7).val tetrominoI ∈ TETROMINOS ∧
        (spawnPiece initialState (3 : Fin 7)).position = ⟨4, 0⟩ ∧
        (spawnPiece initialState (3 : Fin 7)).board = initialState.board ∧
        (spawnPiece initialState (3 : Fin 7)).score = initialState.score ∧
        (spawnPiece initialState (3 : Fin 7)).gameOver = false ∧
        (TETROMINOS.getD (3 : Fin 7).val tetrominoI ≠ tetrominoI →
          centeredSpec 4 (shapeWidth (TETROMINOS.getD (3 : Fin 7).val tetrominoI)))) :=
  ⟨⟨rfl, rfl⟩, claim_C8_spawn initialState 3 rfl rfl⟩

/-- Counterexample to C9 as stated: after spawning the `O` piece and ticking
18 times the piece has not merged — the board is still entirely empty and
the piece is active at y = 18. -/
theorem claim_C9_counterexample :
    (run (GEvent.spawn 3 :: List.replicate 18 GEvent.tick)).board = createBoard ∧
      (run (GEvent.spawn 3 :: List.replicate 18 GEvent.tick)).currentPiece =
        some tetrominoO ∧
      (run (GEvent.spawn 3 :: List.replicate 18 GEvent.tick)).position = ⟨4, 18⟩ := by
  decide

/-- C9 (amended): from the empty board, spawning the `O` piece and ticking
19 times merges it at rows 18-19, columns 4-5: the score stays 0, the piece
slot is cleared, and the board holds exactly the 2×2 block. -/
theorem claim_C9_scenario :
    (run (GEvent.spawn 3 :: List.replicate 19 GEvent.tick)).board =
        List.replicate 18 (List.replicate 10 0) ++
          [[0, 0, 0, 0, 4, 4, 0, 0, 0, 0], [0, 0, 0, 0, 4, 4, 0, 0, 0, 0]] ∧
      (run (GEvent.spawn 3 :: List.replicate 19 GEvent.tick)).score = 0 ∧
      (run (GEvent.spawn 3 :: List.replicate 19 GEvent.tick)).currentPiece = none ∧
      (run (GEvent.spawn 3 :: List.replicate 19 GEvent.tick)).gameOver = false := by
  decide


/-! Invariant machinery for the reachable-state analysis. -/

theorem pieceInBounds_congr (s s' : GameState) (h1 : s.currentPiece = s'.currentPiece)
    (h2 : s.position = s'.position) : pieceInBounds s = pieceInBounds s' := by
  unfold pieceInBounds
  rw [h1, h2]

theorem pieceOverlapFree_congr (s s' : GameState) (hb : s.board = s'.board)
    (h1 : s.currentPiece = s'.currentPiece) (h2 : s.position = s'.position) :
    pieceOverlapFree s = pieceOverlapFree s' := by
  unfold pieceOverlapFree
  rw [hb, h1, h2]

theorem pieceInBounds_none (s : GameState) (h : s.currentPiece = none) :
    pieceInBounds s = true := by
  unfold pieceInBounds
  rw [h]

theorem pieceOverlapFree_none (s : GameState) (h : s.currentPiece = none) :
    pieceOverlapFree s = true := by
  unfold pieceOverlapFree
  rw [h]

theorem pieceInBounds_iff (s : GameState) (p : Piece) (hp : s.currentPiece = some p) :
    pieceInBounds s = true ↔
      ∀ y, y < p.shape.length → ∀ x, x < (p.shape.getD y []).length →
        (p.shape.getD y []).getD x 0 ≠ 0 →
        0 ≤ s.position.x + (x : Int) ∧ s.position.x + (x : Int) < (BOARD_WIDTH : Int) := by
  unfold pieceInBounds
  rw [hp]
  simp only [List.all_eq_true, List.mem_range, Bool.or_eq_true, Bool.not_eq_true',
    Bool.and_eq_true, decide_eq_true_eq, bne_eq_false_iff_eq]
  constructor
  · intro h y hy x hx hocc
    rcases h y hy x hx with h0 | hb
    · exact absurd h0 hocc
    · exact hb
  · intro h y hy x hx
    by_cases hocc : (p.shape.getD y []).getD x 0 = 0
    · exact Or.inl hocc
    · exact Or.inr (h y hy x hx hocc)

theorem pieceOverlapFree_iff (s : GameState) (p : Piece) (hp : s.currentPiece = some p) :
    pieceOverlapFree s = true ↔
      ∀ y, y < p.shape.length → ∀ x, x < (p.shape.getD y []).length →
        (p.shape.getD y []).getD x 0 ≠ 0 → 0 ≤ s.position.y + (y : Int) →
        getCell s.board (s.position.x + (x : Int)) (s.position.y + (y : Int)) = 0 := by
  unfold pieceOverlapFree
  rw [hp]
  simp only [List.all_eq_true, List.mem_range]
  constructor
  · intro h y hy x hx hocc hge
    have hyx := h y hy x hx
    simp only [Bool.or_eq_true, Bool.not_eq_true', bne_eq_false_iff_eq, Bool.not_eq_true,
      Bool.and_eq_false_iff, decide_eq_false_iff_not] at hyx
    rcases hyx with h0 | hb
    · exact absurd h0 hocc
    · rcases hb with hlt | hcell
      · exact absurd hge hlt
      · exact hcell
  · intro h y hy x hx
    simp only [Bool.or_eq_true, Bool.not_eq_true', bne_eq_false_iff_eq, Bool.not_eq_true,
      Bool.and_eq_false_iff, decide_eq_false_iff_not]
    by_cases hocc : (p.shape.getD y []).getD x 0 = 0
    · exact Or.inl hocc
    · right
      by_cases hge : 0 ≤ s.position.y + (y : Int)
      · exact Or.inr (h y hy x hx hocc hge)
      · exact Or.inl hge


theorem mergePieceToBoard_piece_none (s : GameState) (p : Piece)
    (hp : s.currentPiece = some p) : (mergePieceToBoard s).currentPiece = none := by
  unfold mergePieceToBoard
  rw [hp]
  dsimp only
  split <;> rfl

theorem engineInv_initial : engineInv initialState :=
  ⟨pieceInBounds_none _ rfl, fun _ => pieceOverlapFree_none _ rfl⟩

theorem template_spawn_safe (k : Fin 7) :
    ∀ y, y < (TETROMINOS.getD k.val tetrominoI).shape.length →
      ∀ x, x < ((TETROMINOS.getD k.val tetrominoI).shape.getD y []).length →
        ((TETROMINOS.getD k.val tetrominoI).shape.getD y []).getD x 0 ≠ 0 →
        0 ≤ (4 : Int) + (x : Int) ∧ (4 : Int) + (x : Int) < (BOARD_WIDTH : Int) := by
  fin_cases k <;> decide

theorem engineInv_of_safe (b : Board) (p : Piece) (pos : Pos) (go : Bool) (sc : Nat)
    (hsafe : isColliding b p pos = false) :
    engineInv { board := b, currentPiece := some p, position := pos,
                gameOver := go, score := sc } := by
  have hall := (isColliding_eq_false_iff b p pos).mp hsafe
  constructor
  · exact (pieceInBounds_iff _ p rfl).mpr
      fun y hy x hx hocc => ⟨(hall y hy x hx hocc).1, (hall y hy x hx hocc).2.1⟩
  · intro _
    exact (pieceOverlapFree_iff _ p rfl).mpr
      fun y hy x hx hocc hge => (hall y hy x hx hocc).2.2.2 hge

theorem engineInv_moveDown (s : GameState) (h : engineInv s) : engineInv (moveDown s) := by
  obtain ⟨b, cp, pos0, go, sc⟩ := s
  rcases cp with - | p
  · exact h
  · unfold moveDown
    dsimp only
    by_cases hcol : isColliding b p ⟨pos0.x, pos0.y + 1⟩ = true
    · rw [if_pos hcol]
      by_cases hy : pos0.y < 1
      · rw [if_pos hy]
        refine ⟨?_, ?_⟩
        · exact (pieceInBounds_congr _
            ⟨b, some p, pos0, go, sc⟩ rfl rfl).trans h.1
        · intro hne
          exact (pieceOverlapFree_congr _
            ⟨b, some p, pos0, go, sc⟩ rfl rfl rfl).trans (h.2 hne)
      · rw [if_neg hy]
        have hnone := mergePieceToBoard_piece_none ⟨b, some p, pos0, go, sc⟩ p rfl
        exact ⟨pieceInBounds_none _ hnone, fun _ => pieceOverlapFree_none _ hnone⟩
    · rw [if_neg hcol]
      exact engineInv_of_safe b p _ go sc (Bool.not_eq_true _ ▸ hcol)

theorem engineInv_moveHorizontally (s : GameState) (dir : Int) (h : engineInv s) :
    engineInv (moveHorizontally s dir) := by
  obtain ⟨b, cp, pos0, go, sc⟩ := s
  rcases cp with - | p
  · exact h
  · unfold moveHorizontally
    dsimp only
    by_cases hcol : isColliding b p ⟨pos0.x + dir, pos0.y⟩ = true
    · rw [if_pos hcol]
      exact h
    · rw [if_neg hcol]
      exact engineInv_of_safe b p _ go sc (Bool.not_eq_true _ ▸ hcol)

theorem engineInv_rotatePiece (s : GameState) (h : engineInv s) :
    engineInv (rotatePiece s) := by
  obtain ⟨b, cp, pos0, go, sc⟩ := s
  rcases cp with - | p
  · exact h
  · unfold rotatePiece
    dsimp only
    by_cases hcol : isColliding b ⟨rotateShape p.shape, p.color⟩ pos0 = true
    · rw [if_pos hcol]
      exact h
    · rw [if_neg hcol]
      exact engineInv_of_safe b ⟨rotateShape p.shape, p.color⟩ pos0 go sc
        (Bool.not_eq_true _ ▸ hcol)

theorem engineInv_spawnPiece (s : GameState) (k : Fin 7) (h : engineInv s) :
    engineInv (spawnPiece s k) := by
  obtain ⟨b, cp, pos0, go, sc⟩ := s
  unfold spawnPiece
  by_cases hgo : go = true
  · rw [if_pos hgo]
    exact h
  · rw [if_neg hgo]
    rcases cp with - | p
    · dsimp only
      constructor
      · exact (pieceInBounds_iff _ (TETROMINOS.getD k.val tetrominoI) rfl).mpr
          fun y hy x hx hocc => template_spawn_safe k y hy x hx hocc
      · intro hne
        exact absurd rfl hne
    · exact h

theorem engineInv_step (s : GameState) (e : GEvent) (h : engineInv s) :
    engineInv (step s e) := by
  cases e with
  | tick =>
    unfold step
    dsimp only
    by_cases hgo : s.gameOver = true
    · rw [if_pos hgo]; exact h
    · rw [if_neg hgo]; exact engineInv_moveDown s h
  | keyLeft =>
    unfold step
    dsimp only
    by_cases hgo : s.gameOver = true
    · rw [if_pos hgo]; exact h
    · rw [if_neg hgo]; exact engineInv_moveHorizontally s _ h
  | keyRight =>
    unfold step
    dsimp only
    by_cases hgo : s.gameOver = true
    · rw [if_pos hgo]; exact h
    · rw [if_neg hgo]; exact engineInv_moveHorizontally s _ h
  | keyDown =>
    unfold step
    dsimp only
    by_cases hgo : s.gameOver = true
    · rw [if_pos hgo]; exact h
    · rw [if_neg hgo]; exact engineInv_moveDown s h
  | keyUp =>
    unfold step
    dsimp only
    by_cases hgo : s.gameOver = true
    · rw [if_pos hgo]; exact h
    · rw [if_neg hgo]; exact engineInv_rotatePiece s h
  | spawn k => exact engineInv_spawnPiece s k h
  | reset => exact engineInv_initial

theorem engineInv_run_aux :
    ∀ (es : List GEvent) (s : GameState), engineInv s → engineInv (es.foldl step s) := by
  intro es
  induction es with
  | nil => intro s h; exact h
  | cons e t ih => intro s h; exact ih _ (engineInv_step s e h)

theorem engineInv_reachable (s : GameState) (h : Reachable s) : engineInv s := by
  obtain ⟨es, rfl⟩ := h
  exact engineInv_run_aux es initialState engineInv_initial


set_option maxRecDepth 100000 in
/-- Counterexample to C5 as stated: stacking rotated and flat `I` pieces up
to row 1 in columns 4..7 and then spawning an `O` reaches a state whose
active piece's occupied mask cell (row 1, column 0) sits at absolute
coordinates (4, 1) on top of a filled grid cell. -/
theorem claim_C5_counterexample :
    Reachable (run overlapTrace) ∧
      (run overlapTrace).currentPiece = some tetrominoO ∧
      (run overlapTrace).position = ⟨4, 0⟩ ∧
      mget tetrominoO.shape 1 0 ≠ 0 ∧
      getCell (run overlapTrace).board 4 1 ≠ 0 ∧
      pieceOverlapFree (run overlapTrace) = false :=
  ⟨⟨overlapTrace, rfl⟩, by decide, by decide, by decide, by decide, by decide⟩

/-- C5 (amended): in every reachable state with an active piece, every
occupied mask cell lies within the horizontal bounds [0, width); the
no-overlap half holds whenever the piece is away from the spawn position —
a piece freshly spawned onto occupied cells may overlap until the next tick
ends the game. -/
theorem claim_C5_invariant (s : GameState) (h : Reachable s) :
    pieceInBounds s = true ∧ (s.position ≠ spawnPos → pieceOverlapFree s = true) :=
  engineInv_reachable s h

/-- Witness for C5: the state one tick after spawning an `O` piece. -/
theorem claim_C5_invariant_witness :
    Reachable (run [GEvent.spawn 3, GEvent.tick]) ∧
      (pieceInBounds (run [GEvent.spawn 3, GEvent.tick]) = true ∧
        ((run [GEvent.spawn 3, GEvent.tick]).position ≠ spawnPos →
          pieceOverlapFree (run [GEvent.spawn 3, GEvent.tick]) = true)) :=
  ⟨⟨[GEvent.spawn 3, GEvent.tick], rfl⟩,
    claim_C5_invariant _ ⟨[GEvent.spawn 3, GEvent.tick], rfl⟩⟩

end Tetris
